import Mathlib

/-!
# CasADi `LinsolQr` (casadi/solvers/linsol_qr.cpp)

A shallow embedding of the sparse QR linear-solver plugin.  The class
`LinsolQr` is translated method by method; state is passed explicitly.

* `casadi_real` (`double`) values are elements of a type `α`.  Where
  magnitudes are compared, `α` is a linearly ordered field such as `ℚ`: every
  two values are comparable, so the model has no NaN.
* `casadi_int` values are `Int`; dimensions and counts, which are nonnegative
  `casadi_int` values, are `Nat`.  A sum of two `casadi_int` is taken in 64-bit
  two's complement (`casadi_int_add`).
* Runtime kernels that live outside this translation unit (`casadi_qr`,
  `casadi_qr_solve`, `casadi_qr_colcomb`, the methods of the base class
  `LinsolInternal`, `Sparsity::qr_sparse`, the code generator helpers) are
  function parameters; they are total functions, so exceptions thrown inside
  them are outside the model.
-/

namespace casadi

/-! ## Data model -/

/-- Modelled from the spec: the class `Sparsity` (declared outside this file).
A pattern has dimensions and is stored column-major, as column-start offsets
`colind` plus the row index of every structural nonzero, column after column. -/
structure Sparsity where
  nrow : Nat
  ncol : Nat
  colind : List Nat
  row : List Nat
deriving DecidableEq, Repr

/-- Modelled from the spec: `Sparsity::nnz`, the number of structural nonzeros. -/
def Sparsity.nnz (sp : Sparsity) : Nat := sp.row.length

/-- Modelled from the spec: the base class `LinsolInternal` (declared outside
this file), reduced to the members that `LinsolQr` reads: the pattern `sp_` of
the matrix and the `verbose_` flag. -/
structure LinsolInternal where
  sp_ : Sparsity
  verbose_ : Bool
deriving DecidableEq, Repr

/-- The members of `LinsolQr`: the base class, then `prinv_`, `pc_`,
`sp_v_`, `sp_r_` and `eps_`. -/
structure LinsolQr (α : Type) extends LinsolInternal where
  prinv_ : List Int
  pc_ : List Int
  sp_v_ : Sparsity
  sp_r_ : Sparsity
  eps_ : α

/-- Modelled from the spec: `LinsolInternal::nrow`, the row count of the bound pattern. -/
def LinsolQr.nrow {α : Type} (self : LinsolQr α) : Nat := self.sp_.nrow

/-- Modelled from the spec: `LinsolInternal::ncol`, the column count of the bound pattern. -/
def LinsolQr.ncol {α : Type} (self : LinsolQr α) : Nat := self.sp_.ncol

/-- A value brought into the range of `casadi_int` (`long long`): 64-bit two's
complement. -/
def casadi_int_wrap (x : Int) : Int :=
  (x + 9223372036854775808) % 18446744073709551616 - 9223372036854775808

/-- The sum `a + b` of two `casadi_int` values. -/
def casadi_int_add (a b : Int) : Int := casadi_int_wrap (a + b)

/-- `LinsolQrMemory` as `linsol_qr.cpp` uses it: the base-class memory block
(of a type `M` fixed by the host framework) and the vectors `v`, `r`, `beta`,
`w`. -/
structure LinsolQrMemory (M α : Type) where
  base : M
  v : List α
  r : List α
  beta : List α
  w : List α

/-- One argument of a `print` call. -/
inductive PrintArg (α : Type) where
  | int (i : Int)
  | real (x : α)
deriving DecidableEq

/-- One call of `print`: the format string and its arguments. -/
structure PrintEvent (α : Type) where
  fmt : String
  args : List (PrintArg α)
deriving DecidableEq

/-- What `casadi_qr` writes: the workspace and the three value arrays. -/
structure QrOut (α : Type) where
  w : List α
  v : List α
  r : List α
  beta : List α

/-- Type of `casadi_qr(sp_a, nz_a, w, sp_v, nz_v, sp_r, nz_r, beta, prinv, pc)`. -/
abbrev QrFn (α : Type) :=
  Sparsity → List α → List α → Sparsity → List α → Sparsity → List α → List α →
    List Int → List Int → QrOut α

/-- What `casadi_qr_singular` reports: its return value and the contents of
the two out-parameters `rmin`, `irmin` after the call. -/
structure SingularReport (α : Type) where
  nullity : Int
  rmin : α
  irmin : Int

/-- Type of `casadi_qr_singular(&rmin, &irmin, nz_r, sp_r, pc, eps)`; the first
two arguments are the contents of `rmin` and `irmin` before the call. -/
abbrev QrSingularFn (α : Type) :=
  α → Int → List α → Sparsity → List Int → α → SingularReport α

/-- Type of `casadi_qr_colcomb(v, nz_r, sp_r, pc, eps, ind)`; returns the new `v`. -/
abbrev QrColcombFn (α : Type) :=
  List α → List α → Sparsity → List Int → α → Int → List α

/-- Type of `casadi_qr_solve(x, nrhs, tr, sp_v, v, sp_r, r, beta, prinv, pc, w)`;
returns the new contents of `x` and of the workspace `w`. -/
abbrev QrSolveFn (α : Type) :=
  List α → Int → Bool → Sparsity → List α → Sparsity → List α → List α →
    List Int → List Int → List α → List α × List α

/-! ## Numerical factorization and solve -/

/-- Result of a call that returns a status and works on a memory block. -/
structure CallResult (M α : Type) where
  status : Int
  mem : LinsolQrMemory M α
  out : List (PrintEvent α)

/-- The messages printed by `nfact` when a singularity is found and
`verbose_` is set; `w` is the workspace after `casadi_qr_colcomb`. -/
def LinsolQr.nfact_messages {α : Type} [Zero α] (self : LinsolQr α)
    (rep : SingularReport α) (w : List α) : List (PrintEvent α) :=
  [⟨"Singularity detected: Rank %lld<%lld\n",
      [.int ((self.ncol : Int) - rep.nullity), .int self.ncol]⟩,
   ⟨"First singular R entry: %g<%g, corresponding to row %lld\n",
      [.real rep.rmin, .real self.eps_, .int rep.irmin]⟩,
   ⟨"Linear combination of columns:\n[", []⟩]
  ++ (List.range self.ncol).map
      (fun k => ⟨if k = 0 then "%g" else ", %g", [.real (w.getD k 0)]⟩)
  ++ [⟨"]\n", []⟩]

/-- `LinsolQr::nfact`.  `rmin0`, `irmin0` are the indeterminate initial
contents of the locals `rmin`, `irmin`. -/
def LinsolQr.nfact {M α : Type} [Zero α] (qr : QrFn α) (qr_singular : QrSingularFn α)
    (qr_colcomb : QrColcombFn α) (self : LinsolQr α) (rmin0 : α) (irmin0 : Int)
    (mem : LinsolQrMemory M α) (A : List α) : CallResult M α :=
  let f := qr self.sp_ A mem.w self.sp_v_ mem.v self.sp_r_ mem.r mem.beta self.prinv_ self.pc_
  let m : LinsolQrMemory M α := { mem with w := f.w, v := f.v, r := f.r, beta := f.beta }
  -- Check singularity
  let rep := qr_singular rmin0 irmin0 m.r self.sp_r_ self.pc_ self.eps_
  if rep.nullity ≠ 0 then
    if self.verbose_ then
      let w := qr_colcomb m.w m.r self.sp_r_ self.pc_ self.eps_ 0
      { status := 1, mem := { m with w := w }, out := self.nfact_messages rep w }
    else
      { status := 1, mem := m, out := [] }
  else
    { status := 0, mem := m, out := [] }

/-- The R values that `nfact` hands to the singularity scan. -/
def LinsolQr.nfact_r {M α : Type} (qr : QrFn α) (self : LinsolQr α)
    (mem : LinsolQrMemory M α) (A : List α) : List α :=
  (qr self.sp_ A mem.w self.sp_v_ mem.v self.sp_r_ mem.r mem.beta self.prinv_ self.pc_).r

/-- Result of `solve`: the status, the memory block and the buffer `x`. -/
structure SolveResult (M α : Type) where
  status : Int
  mem : LinsolQrMemory M α
  x : List α

/-- `LinsolQr::solve`. -/
def LinsolQr.solve {M α : Type} (qr_solve : QrSolveFn α) (self : LinsolQr α)
    (mem : LinsolQrMemory M α) (_A : List α) (x : List α) (nrhs : Int) (tr : Bool) :
    SolveResult M α :=
  let s := qr_solve x nrhs tr self.sp_v_ mem.v self.sp_r_ mem.r mem.beta
    self.prinv_ self.pc_ mem.w
  { status := 0, mem := { mem with w := s.2 }, x := s.1 }

/-! ## The singularity scan -/

/-- Modelled from the spec: the diagonal entry of R in column `c`, read from the
column-major storage of `casadi_qr_singular` (absent here): the stored value
whose row index is `c` among the entries of column `c`, and zero when the
pattern has no such entry. -/
def qr_diag {α : Type} [Zero α] (nz_r : List α) (sp_r : Sparsity) (c : Nat) : α :=
  let lo := sp_r.colind.getD c 0
  let hi := sp_r.colind.getD (c + 1) 0
  match (List.range' lo (hi - lo)).find? (fun k => sp_r.row.getD k 0 == c) with
  | some k => nz_r.getD k 0
  | none => 0

/-- Modelled from the spec: one step of the scan of `casadi_qr_singular` (absent
here) at column `c`: a diagonal magnitude below `eps` counts toward the
nullity, `rmin` records the smallest magnitude met so far and `irmin` the
index, in permuted (factorization) order, of the entry that has it.  The column
permutation `pc` belongs to the interface of the analyzer. -/
def qr_singular_step {α : Type} [LinearOrderedField α] (nz_r : List α) (sp_r : Sparsity)
    (_pc : List Int) (eps : α) (rep : SingularReport α) (c : Nat) : SingularReport α :=
  let rd := |qr_diag nz_r sp_r c|
  { nullity := if rd < eps then rep.nullity + 1 else rep.nullity
    rmin := if c = 0 ∨ rd < rep.rmin then rd else rep.rmin
    irmin := if c = 0 ∨ rd < rep.rmin then (c : Int) else rep.irmin }

/-- Modelled from the spec: the scan of `casadi_qr_singular` (absent here) over
the first `n` diagonal entries, in factorization order. -/
def qr_singular_scan {α : Type} [LinearOrderedField α] (rmin0 : α) (irmin0 : Int)
    (nz_r : List α) (sp_r : Sparsity) (pc : List Int) (eps : α) (n : Nat) : SingularReport α :=
  (List.range n).foldl (qr_singular_step nz_r sp_r pc eps) ⟨0, rmin0, irmin0⟩

/-- Modelled from the spec: `casadi_qr_singular` (absent here), the singularity
analyzer: it scans the diagonal of R over all columns of `sp_r`. -/
def casadi_qr_singular {α : Type} [LinearOrderedField α] : QrSingularFn α :=
  fun rmin0 irmin0 nz_r sp_r pc eps => qr_singular_scan rmin0 irmin0 nz_r sp_r pc eps sp_r.ncol

/-! ## Options and working memory -/

/-- Modelled from the spec: the option dictionary `Dict` (declared outside this
file), a map from option name to a value of the host framework's variant type
`G`, listed in iteration order. -/
abbrev Dict (G : Type) := List (String × G)

/-- `LinsolQr::init`.  `base_init` is `LinsolInternal::init`, `to_double` the
conversion of an option value to `double`, `qr_sparse` the symbolic
factorization `Sparsity::qr_sparse`, returning `(sp_v, sp_r, prinv, pc)`. -/
def LinsolQr.init {G α : Type} [OfScientific α]
    (base_init : Dict G → LinsolInternal → LinsolInternal) (to_double : G → α)
    (qr_sparse : Sparsity → Sparsity × Sparsity × List Int × List Int)
    (self : LinsolQr α) (opts : Dict G) : LinsolQr α :=
  -- Call the init method of the base class
  let b := base_init opts self.toLinsolInternal
  -- Read options
  let eps := opts.foldl (fun e op => if op.1 = "eps" then to_double op.2 else e) 1e-12
  -- Symbolic factorization
  let s := qr_sparse b.sp_
  { toLinsolInternal := b, eps_ := eps, sp_v_ := s.1, sp_r_ := s.2.1,
    prinv_ := s.2.2.1, pc_ := s.2.2.2 }

/-- `std::vector::resize`: keep the first `n` elements, pad with zeros. -/
def resize {α : Type} [Zero α] (l : List α) (n : Nat) : List α :=
  l.take n ++ List.replicate (n - l.length) 0

/-- `LinsolQr::init_mem`.  `base_init_mem` is `LinsolInternal::init_mem`,
acting on the base part of the memory block. -/
def LinsolQr.init_mem {M α : Type} [Zero α] (base_init_mem : M → Int × M)
    (self : LinsolQr α) (mem : LinsolQrMemory M α) : Int × LinsolQrMemory M α :=
  let b := base_init_mem mem.base
  if b.1 ≠ 0 then (1, { mem with base := b.2 })
  else
    (0, { base := b.2
          v := resize mem.v self.sp_v_.nnz
          r := resize mem.r self.sp_r_.nnz
          beta := resize mem.beta self.ncol
          w := resize mem.w (self.nrow + self.ncol) })

/-! ## Code generation -/

/-- Modelled from the spec: the class `CodeGenerator` (absent here): the text
written with `<<` so far, and the rest of its state (the literal constant
tables and the auxiliaries) of a type `X`. -/
structure CodeGenerator (X : Type) where
  buffer : String
  aux : X

/-- Modelled from the spec: the helpers of `CodeGenerator` (absent here) that
`generate` calls; each one returns a piece of text and may register data in
the generator state; `comment` gives the text that `g.comment` writes. -/
structure CodeGenOps (X : Type) where
  constant : X → List Int → String × X
  sparsity : X → Sparsity → String × X
  comment : String → String
  qr : X → String → String → String → String → String → String → String → String →
    String → String → String × X
  qr_solve : X → String → Int → Bool → String → String → String → String → String →
    String → String → String → String × X

/-- Modelled from the spec: the stream operator `g << s` of `CodeGenerator`
(absent here), which appends `s` to the text. -/
def CodeGenerator.shl {X : Type} (g : CodeGenerator X) (s : String) : CodeGenerator X :=
  { g with buffer := g.buffer ++ s }

/-- `LinsolQr::generate`. -/
def LinsolQr.generate {X α : Type} (ops : CodeGenOps X) (self : LinsolQr α)
    (g : CodeGenerator X) (A x : String) (nrhs : Int) (tr : Bool) : CodeGenerator X :=
  -- Codegen the integer vectors
  let prinv := ops.constant g.aux self.prinv_
  let pc := ops.constant prinv.2 self.pc_
  let sp := ops.sparsity pc.2 self.sp_
  let sp_v := ops.sparsity sp.2 self.sp_v_
  let sp_r := ops.sparsity sp_v.2 self.sp_r_
  let g : CodeGenerator X := { g with aux := sp_r.2 }
  -- Place in block to avoid conflicts caused by local variables
  let g := g.shl "\x7b\n"
  let g := g.shl (ops.comment "FIXME(@jaeandersson): Memory allocation can be avoided")
  let g := ((((((((g.shl "casadi_real v[").shl (toString self.sp_v_.nnz)).shl "], r[").shl
    (toString self.sp_r_.nnz)).shl "], beta[").shl (toString self.ncol)).shl "], w[").shl
    (toString (casadi_int_add self.nrow self.ncol))).shl "];\n"
  -- Factorize
  let f := ops.qr g.aux sp.1 A "w" sp_v.1 "v" sp_r.1 "r" "beta" prinv.1 pc.1
  let g := ({ g with aux := f.2 }.shl f.1).shl "\n"
  -- Solve
  let s := ops.qr_solve g.aux x nrhs tr sp_v.1 "v" sp_r.1 "r" "beta" prinv.1 pc.1 "w"
  let g := ({ g with aux := s.2 }.shl s.1).shl "\n"
  -- End of block
  g.shl "\x7d\n"

/-! ## Serialization -/

/-- Modelled from the spec: one record of the named, versioned record format
written by `SerializingStream` (absent here): a version tag or a named value. -/
inductive Item (α : Type) where
  | version (name : String) (v : Int)
  | int (descr : String) (v : Int)
  | bool (descr : String) (v : Bool)
  | string (descr : String) (v : String)
  | real (descr : String) (x : α)
  | int_vector (descr : String) (v : List Int)
  | sparsity (descr : String) (sp : Sparsity)

/-- Modelled from the spec: the payload of a `SerializingStream` or
`DeserializingStream` (absent here), the records still to be read. -/
abbrev Stream (α : Type) := List (Item α)

/-- Outcome of a read: a value or an error, and the records left unread. -/
abbrev Unpacked (α X : Type) := Except String X × Stream α

/-- Modelled from the spec: `DeserializingStream::version(name, v)` (absent
here): reads the version tag and fails when it is not the supported one. -/
def DeserializingStream.version {α : Type} (name : String) (v : Int) (s : Stream α) :
    Unpacked α Unit :=
  match s with
  | Item.version n load_version :: rest =>
    if n = name then
      if load_version = v then (.ok (), rest)
      else (.error ("DeSerialization of " ++ name ++ " failed: unsupported version"), rest)
    else (.error ("Mismatch: " ++ name ++ " expected"), s)
  | _ => (.error ("Mismatch: " ++ name ++ " expected"), s)

/-- Modelled from the spec: `DeserializingStream::unpack` (absent here) for a
vector of integers. -/
def DeserializingStream.unpack_int_vector {α : Type} (descr : String) (s : Stream α) :
    Unpacked α (List Int) :=
  match s with
  | Item.int_vector d v :: rest =>
    if d = descr then (.ok v, rest) else (.error ("Mismatch: " ++ descr ++ " expected"), s)
  | _ => (.error ("Mismatch: " ++ descr ++ " expected"), s)

/-- Modelled from the spec: `DeserializingStream::unpack` (absent here) for a
sparsity pattern. -/
def DeserializingStream.unpack_sparsity {α : Type} (descr : String) (s : Stream α) :
    Unpacked α Sparsity :=
  match s with
  | Item.sparsity d sp :: rest =>
    if d = descr then (.ok sp, rest) else (.error ("Mismatch: " ++ descr ++ " expected"), s)
  | _ => (.error ("Mismatch: " ++ descr ++ " expected"), s)

/-- Modelled from the spec: `DeserializingStream::unpack` (absent here) for a
`double`. -/
def DeserializingStream.unpack_real {α : Type} (descr : String) (s : Stream α) :
    Unpacked α α :=
  match s with
  | Item.real d x :: rest =>
    if d = descr then (.ok x, rest) else (.error ("Mismatch: " ++ descr ++ " expected"), s)
  | _ => (.error ("Mismatch: " ++ descr ++ " expected"), s)

/-- Sequencing of reads: the first error stops the sequence and leaves the
stream where it was detected. -/
def Unpacked.andThen {α X Y : Type} (r : Unpacked α X) (k : X → Stream α → Unpacked α Y) :
    Unpacked α Y :=
  match r with
  | (.ok a, s) => k a s
  | (.error e, s) => (.error e, s)

/-- `LinsolQr::serialize_body`.  `base_ser` gives the records written by
`LinsolInternal::serialize_body`; the result is the stream after the call. -/
def LinsolQr.serialize_body {α : Type} (base_ser : LinsolInternal → Stream α)
    (self : LinsolQr α) (s : Stream α) : Stream α :=
  s ++ base_ser self.toLinsolInternal ++
    [Item.version "LinsolQr" 1,
     Item.int_vector "LinsolQr::prinv" self.prinv_,
     Item.int_vector "LinsolQr::pc" self.pc_,
     Item.sparsity "LinsolQr::sp_v" self.sp_v_,
     Item.sparsity "LinsolQr::sp_r" self.sp_r_,
     Item.real "LinsolQr::eps" self.eps_]

/-- The deserializing constructor `LinsolQr::LinsolQr(DeserializingStream&)`.
`base_deser` is the base-class constructor `LinsolInternal(s)`. -/
def LinsolQr.deserialize {α : Type} (base_deser : Stream α → Unpacked α LinsolInternal)
    (s : Stream α) : Unpacked α (LinsolQr α) :=
  (base_deser s).andThen fun b s =>
  (DeserializingStream.version "LinsolQr" 1 s).andThen fun _ s =>
  (DeserializingStream.unpack_int_vector "LinsolQr::prinv" s).andThen fun prinv s =>
  (DeserializingStream.unpack_int_vector "LinsolQr::pc" s).andThen fun pc s =>
  (DeserializingStream.unpack_sparsity "LinsolQr::sp_v" s).andThen fun sp_v s =>
  (DeserializingStream.unpack_sparsity "LinsolQr::sp_r" s).andThen fun sp_r s =>
  (DeserializingStream.unpack_real "LinsolQr::eps" s).andThen fun eps s =>
  (.ok { toLinsolInternal := b, prinv_ := prinv, pc_ := pc, sp_v_ := sp_v, sp_r_ := sp_r,
         eps_ := eps }, s)

/-! ## A concrete instance

An upper triangular 2-by-2 matrix with the identity permutations, for which
the factor R has the values of the matrix itself. -/

/-- The pattern of an upper triangular 2-by-2 matrix. -/
def demo_sp : Sparsity := ⟨2, 2, [0, 1, 3], [0, 0, 1]⟩

/-- A solver bound to `demo_sp`, with threshold 2. -/
def demo_solver : LinsolQr ℚ :=
  ⟨⟨demo_sp, true⟩, [0, 1], [0, 1], ⟨2, 2, [0, 1, 2], [0, 1]⟩, demo_sp, 2⟩

/-- A factorization kernel that stores the matrix values as R. -/
def demo_qr : QrFn ℚ := fun _ A w _ v _ _ beta _ _ => ⟨w, v, A, beta⟩

/-- A column-combination kernel that leaves the workspace as it is. -/
def demo_colcomb : QrColcombFn ℚ := fun w _ _ _ _ _ => w

/-- A memory block after `init_mem`. -/
def demo_mem : LinsolQrMemory Unit ℚ := ⟨(), [0, 0], [0, 0, 0], [0, 0], [0, 0, 0, 0]⟩

/-- A solver bound to `demo_sp` with the two columns exchanged, threshold 2. -/
def demo_solver_perm : LinsolQr ℚ :=
  ⟨⟨demo_sp, true⟩, [1, 0], [1, 0], ⟨2, 2, [0, 1, 2], [0, 1]⟩, demo_sp, 2⟩

/-- A solver state bound to a 1-by-1 matrix whose R pattern has two columns,
as the deserializing constructor restores it from such a payload. -/
def mismatch_solver : LinsolQr ℚ :=
  ⟨⟨⟨1, 1, [0, 1], [0]⟩, true⟩, [0], [0], ⟨1, 1, [0, 1], [0]⟩, demo_sp, 2⟩

/-- A factorization kernel that writes zeros into R. -/
def zero_qr : QrFn ℚ := fun _ _ w _ v _ r beta _ _ => ⟨w, v, r.map (fun _ => 0), beta⟩

/-- The memory block that `init_mem` sets up for `mismatch_solver`. -/
def mismatch_mem : LinsolQrMemory Unit ℚ := ⟨(), [0], [0, 0, 0], [0], [0, 0]⟩

/-- A solver bound to a pattern with 2^63 - 1 rows and one column. -/
def overflow_solver : LinsolQr ℚ :=
  ⟨⟨⟨9223372036854775807, 1, [0, 0], []⟩, false⟩, [], [0],
    ⟨9223372036854775807, 1, [0, 0], []⟩, ⟨1, 1, [0, 0], []⟩, 2⟩

/-- Code generator helpers that number the constants they register. -/
def demo_ops : CodeGenOps Nat :=
  { constant := fun n _ => ("casadi_c" ++ toString n, n + 1)
    sparsity := fun n _ => ("casadi_s" ++ toString n, n + 1)
    comment := fun s => "// " ++ s ++ "\n"
    qr := fun n sp A w sp_v v sp_r r beta prinv pc =>
      ("casadi_qr(" ++ sp ++ ", " ++ A ++ ", " ++ w ++ ", " ++ sp_v ++ ", " ++ v ++ ", "
        ++ sp_r ++ ", " ++ r ++ ", " ++ beta ++ ", " ++ prinv ++ ", " ++ pc ++ ");", n)
    qr_solve := fun n x nrhs tr sp_v v sp_r r beta prinv pc w =>
      ("casadi_qr_solve(" ++ x ++ ", " ++ toString nrhs ++ ", " ++ (if tr then "1" else "0")
        ++ ", " ++ sp_v ++ ", " ++ v ++ ", " ++ sp_r ++ ", " ++ r ++ ", " ++ beta ++ ", "
        ++ prinv ++ ", " ++ pc ++ ", " ++ w ++ ");", n) }

/-! ## Theorems -/

set_option maxRecDepth 8000

/-! ### Auxiliary lemmas -/

theorem resize_length {α : Type} [Zero α] (l : List α) (n : Nat) : (resize l n).length = n := by
  simp only [resize, List.length_append, List.length_take, List.length_replicate]
  omega

theorem eps_fold_no_key {G α : Type} (to_double : G → α) (opts : Dict G) (e : α)
    (h : ∀ op ∈ opts, op.1 ≠ "eps") :
    opts.foldl (fun e op => if op.1 = "eps" then to_double op.2 else e) e = e := by
  induction opts generalizing e with
  | nil => rfl
  | cons op t ih =>
    have h1 : op.1 ≠ "eps" := h op (List.mem_cons_self _ _)
    simp only [List.foldl_cons, h1, if_false]
    exact ih e (fun o ho => h o (List.mem_cons_of_mem _ ho))

theorem eps_fold_key {G α : Type} (to_double : G → α) (opts : Dict G) (e : α) (v : G)
    (hnodup : (opts.map Prod.fst).Nodup) (hv : ("eps", v) ∈ opts) :
    opts.foldl (fun e op => if op.1 = "eps" then to_double op.2 else e) e = to_double v := by
  induction opts generalizing e with
  | nil => simp at hv
  | cons op t ih =>
    rw [List.map_cons, List.nodup_cons] at hnodup
    rw [List.foldl_cons]
    rcases List.mem_cons.mp hv with h | h
    · subst h
      simp only [if_true]
      apply eps_fold_no_key
      intro o ho heq
      have hmem := List.mem_map_of_mem Prod.fst ho
      rw [heq] at hmem
      exact hnodup.1 hmem
    · exact ih _ hnodup.2 h

theorem eps_fold_filter {G α : Type} (to_double : G → α) (opts : Dict G) (e : α) :
    opts.foldl (fun e op => if op.1 = "eps" then to_double op.2 else e) e
      = (opts.filter (fun op => op.1 = "eps")).foldl
          (fun e op => if op.1 = "eps" then to_double op.2 else e) e := by
  induction opts generalizing e with
  | nil => rfl
  | cons op t ih =>
    by_cases h : op.1 = "eps"
    · simp only [List.foldl_cons, h, if_true, List.filter_cons, decide_True]
      exact ih _
    · simp only [List.foldl_cons, h, if_false, List.filter_cons, decide_False]
      exact ih _

theorem nfact_status_eq {M α : Type} [Zero α] (qr : QrFn α)
    (qr_singular : QrSingularFn α) (qr_colcomb : QrColcombFn α) (self : LinsolQr α)
    (rmin0 : α) (irmin0 : Int) (mem : LinsolQrMemory M α) (A : List α) :
    (self.nfact qr qr_singular qr_colcomb rmin0 irmin0 mem A).status
      = if (qr_singular rmin0 irmin0 (self.nfact_r qr mem A)
          self.sp_r_ self.pc_ self.eps_).nullity = 0 then 0 else 1 := by
  simp only [LinsolQr.nfact, LinsolQr.nfact_r]
  by_cases h : (qr_singular rmin0 irmin0
      (qr self.sp_ A mem.w self.sp_v_ mem.v self.sp_r_ mem.r mem.beta self.prinv_ self.pc_).r
      self.sp_r_ self.pc_ self.eps_).nullity = 0
  · simp [h]
  · cases hb : self.verbose_ <;> simp [h]

theorem qr_singular_scan_succ {α : Type} [LinearOrderedField α] (rmin0 : α) (irmin0 : Int)
    (nz_r : List α) (sp_r : Sparsity) (pc : List Int) (eps : α) (n : Nat) :
    qr_singular_scan rmin0 irmin0 nz_r sp_r pc eps (n + 1)
      = qr_singular_step nz_r sp_r pc eps
          (qr_singular_scan rmin0 irmin0 nz_r sp_r pc eps n) n := by
  simp [qr_singular_scan, List.range_succ, List.foldl_append]

theorem qr_singular_scan_nullity_bounds {α : Type} [LinearOrderedField α] (rmin0 : α)
    (irmin0 : Int) (nz_r : List α) (sp_r : Sparsity) (pc : List Int) (eps : α) (n : Nat) :
    0 ≤ (qr_singular_scan rmin0 irmin0 nz_r sp_r pc eps n).nullity ∧
      (qr_singular_scan rmin0 irmin0 nz_r sp_r pc eps n).nullity ≤ n := by
  induction n with
  | zero => simp [qr_singular_scan]
  | succ n ih =>
    rw [qr_singular_scan_succ]
    simp only [qr_singular_step]
    split_ifs <;> constructor <;> push_cast <;> omega

theorem qr_singular_scan_nullity_mono {α : Type} [LinearOrderedField α] (rmin0 : α)
    (irmin0 : Int) (nz_r : List α) (sp_r : Sparsity) (pc : List Int) (eps1 eps2 : α)
    (h : eps1 ≤ eps2) (n : Nat) :
    (qr_singular_scan rmin0 irmin0 nz_r sp_r pc eps1 n).nullity
      ≤ (qr_singular_scan rmin0 irmin0 nz_r sp_r pc eps2 n).nullity := by
  induction n with
  | zero => simp [qr_singular_scan]
  | succ n ih =>
    rw [qr_singular_scan_succ, qr_singular_scan_succ]
    simp only [qr_singular_step]
    by_cases h1 : |qr_diag nz_r sp_r n| < eps1
    · have h2 : |qr_diag nz_r sp_r n| < eps2 := lt_of_lt_of_le h1 h
      simp only [h1, h2, if_true]
      omega
    · simp only [h1, if_false]
      split_ifs <;> omega

theorem qr_singular_scan_nullity_pos {α : Type} [LinearOrderedField α] (rmin0 : α)
    (irmin0 : Int) (nz_r : List α) (sp_r : Sparsity) (pc : List Int) (eps : α) (n : Nat) :
    1 ≤ (qr_singular_scan rmin0 irmin0 nz_r sp_r pc eps n).nullity ↔
      ∃ c, c < n ∧ |qr_diag nz_r sp_r c| < eps := by
  induction n with
  | zero => simp [qr_singular_scan]
  | succ n ih =>
    rw [qr_singular_scan_succ]
    have hb := qr_singular_scan_nullity_bounds rmin0 irmin0 nz_r sp_r pc eps n
    simp only [qr_singular_step]
    by_cases h1 : |qr_diag nz_r sp_r n| < eps
    · simp only [h1, if_true]
      constructor
      · intro _
        exact ⟨n, Nat.lt_succ_self n, h1⟩
      · intro _
        omega
    · simp only [h1, if_false]
      rw [ih]
      constructor
      · rintro ⟨c, hc, hd⟩
        exact ⟨c, Nat.lt_succ_of_lt hc, hd⟩
      · rintro ⟨c, hc, hd⟩
        rcases Nat.lt_succ_iff_lt_or_eq.mp hc with hlt | heq
        · exact ⟨c, hlt, hd⟩
        · subst heq
          exact absurd hd h1

theorem qr_singular_scan_rmin {α : Type} [LinearOrderedField α] (rmin0 : α)
    (irmin0 : Int) (nz_r : List α) (sp_r : Sparsity) (pc : List Int) (eps : α) (n : Nat) :
    (∀ c, c < n + 1 →
      (qr_singular_scan rmin0 irmin0 nz_r sp_r pc eps (n + 1)).rmin ≤ |qr_diag nz_r sp_r c|) ∧
    ∃ c, c < n + 1 ∧
      (qr_singular_scan rmin0 irmin0 nz_r sp_r pc eps (n + 1)).rmin = |qr_diag nz_r sp_r c| ∧
      (qr_singular_scan rmin0 irmin0 nz_r sp_r pc eps (n + 1)).irmin = (c : Int) := by
  induction n with
  | zero =>
    rw [qr_singular_scan_succ]
    simp only [qr_singular_step, true_or, if_true]
    refine ⟨?_, 0, Nat.zero_lt_one, rfl, rfl⟩
    intro c hc
    have hc0 : c = 0 := by omega
    subst hc0
    exact le_refl _
  | succ n ih =>
    rw [qr_singular_scan_succ]
    obtain ⟨hle, c0, hc0, hr0, hi0⟩ := ih
    simp only [qr_singular_step, Nat.succ_ne_zero, false_or]
    by_cases h1 : |qr_diag nz_r sp_r (n + 1)|
        < (qr_singular_scan rmin0 irmin0 nz_r sp_r pc eps (n + 1)).rmin
    · simp only [h1, if_true]
      refine ⟨?_, n + 1, Nat.lt_succ_self _, rfl, rfl⟩
      intro c hc
      rcases Nat.lt_succ_iff_lt_or_eq.mp hc with hlt | heq
      · exact le_trans (le_of_lt h1) (hle c hlt)
      · subst heq
        exact le_refl _
    · simp only [h1, if_false]
      refine ⟨?_, c0, Nat.lt_succ_of_lt hc0, hr0, hi0⟩
      intro c hc
      rcases Nat.lt_succ_iff_lt_or_eq.mp hc with hlt | heq
      · exact hle c hlt
      · subst heq
        exact not_lt.mp h1

theorem casadi_int_add_of_lt (a b : Nat) (h : a + b < 9223372036854775808) :
    casadi_int_add a b = ((a + b : Nat) : Int) := by
  simp only [casadi_int_add, casadi_int_wrap]
  push_cast
  omega

theorem toString_natCast_int (n : Nat) : toString ((n : Nat) : Int) = toString n := rfl

theorem nfact_mem_r {M α : Type} [Zero α] (qr : QrFn α)
    (qr_singular : QrSingularFn α) (qr_colcomb : QrColcombFn α) (self : LinsolQr α)
    (rmin0 : α) (irmin0 : Int) (mem : LinsolQrMemory M α) (A : List α) :
    (self.nfact qr qr_singular qr_colcomb rmin0 irmin0 mem A).mem.r
      = self.nfact_r qr mem A := by
  simp only [LinsolQr.nfact, LinsolQr.nfact_r]
  split_ifs <;> rfl

theorem nfact_out_verbose {M α : Type} [Zero α] (qr : QrFn α)
    (qr_singular : QrSingularFn α) (qr_colcomb : QrColcombFn α) (self : LinsolQr α)
    (rmin0 : α) (irmin0 : Int) (mem : LinsolQrMemory M α) (A : List α)
    (hn : (qr_singular rmin0 irmin0 (self.nfact_r qr mem A)
      self.sp_r_ self.pc_ self.eps_).nullity ≠ 0) (hv : self.verbose_ = true) :
    ∃ w : List α, (self.nfact qr qr_singular qr_colcomb rmin0 irmin0 mem A).out
      = self.nfact_messages (qr_singular rmin0 irmin0 (self.nfact_r qr mem A)
          self.sp_r_ self.pc_ self.eps_) w := by
  simp only [LinsolQr.nfact_r] at hn
  simp only [LinsolQr.nfact, LinsolQr.nfact_r, hn, hv, ne_eq, not_false_eq_true, if_true]
  exact ⟨_, rfl⟩

/-! ### The claims -/

/-- C1: `nfact` returns 0 exactly when the nullity reported by the singularity
scan on the freshly computed R values (with `sp_r_`, `pc_`, `eps_`) is 0, it
returns 1 for every nonzero nullity, and the status is the same for either
value of `verbose_`. -/
theorem nfact_status_iff_nullity {M α : Type} [Zero α] (qr : QrFn α)
    (qr_singular : QrSingularFn α) (qr_colcomb : QrColcombFn α) (self : LinsolQr α)
    (rmin0 : α) (irmin0 : Int) (mem : LinsolQrMemory M α) (A : List α) :
    let nullity := (qr_singular rmin0 irmin0 (self.nfact_r qr mem A)
      self.sp_r_ self.pc_ self.eps_).nullity
    let status := fun (s : LinsolQr α) =>
      (s.nfact qr qr_singular qr_colcomb rmin0 irmin0 mem A).status
    (status self = 0 ↔ nullity = 0) ∧ (nullity ≠ 0 → status self = 1) ∧
      ∀ b : Bool, status { self with verbose_ := b } = status self := by
  intro nullity status
  have key : ∀ s : LinsolQr α, s.sp_ = self.sp_ → s.sp_v_ = self.sp_v_ →
      s.sp_r_ = self.sp_r_ → s.prinv_ = self.prinv_ → s.pc_ = self.pc_ → s.eps_ = self.eps_ →
      status s = if nullity = 0 then 0 else 1 := by
    intro s h1 h2 h3 h4 h5 h6
    simp only [status, nullity]
    rw [nfact_status_eq]
    simp only [LinsolQr.nfact_r, h1, h2, h3, h4, h5, h6]
  have hself := key self rfl rfl rfl rfl rfl rfl
  refine ⟨?_, ?_, ?_⟩
  · rw [hself]; by_cases h : nullity = 0 <;> simp [h]
  · intro h; rw [hself]; simp [h]
  · intro b
    exact (key { self with verbose_ := b } rfl rfl rfl rfl rfl rfl).trans hself.symm

/-- C2: `solve` returns status 0 for every memory state, buffer, `nrhs`,
transpose flag and threshold; nothing in it can report a failure. -/
theorem solve_status_zero {M α : Type} (qr_solve : QrSolveFn α) (self : LinsolQr α)
    (mem : LinsolQrMemory M α) (A x : List α) (nrhs : Int) (tr : Bool) :
    (self.solve qr_solve mem A x nrhs tr).status = 0 ∧
      ∀ eps : α, ({ self with eps_ := eps }.solve qr_solve mem A x nrhs tr).x
        = (self.solve qr_solve mem A x nrhs tr).x := by
  exact ⟨rfl, fun _ => rfl⟩

/-- C10: `solve` ignores the matrix values: for any two value arrays the
status, the buffer `x` and the memory block after the call coincide. -/
theorem solve_ignores_A {M α : Type} (qr_solve : QrSolveFn α) (self : LinsolQr α)
    (mem : LinsolQrMemory M α) (A1 A2 x : List α) (nrhs : Int) (tr : Bool) :
    (self.solve qr_solve mem A1 x nrhs tr).status = (self.solve qr_solve mem A2 x nrhs tr).status ∧
    (self.solve qr_solve mem A1 x nrhs tr).x = (self.solve qr_solve mem A2 x nrhs tr).x ∧
    (self.solve qr_solve mem A1 x nrhs tr).mem.v = (self.solve qr_solve mem A2 x nrhs tr).mem.v ∧
    (self.solve qr_solve mem A1 x nrhs tr).mem.r = (self.solve qr_solve mem A2 x nrhs tr).mem.r ∧
    (self.solve qr_solve mem A1 x nrhs tr).mem.beta
      = (self.solve qr_solve mem A2 x nrhs tr).mem.beta ∧
    (self.solve qr_solve mem A1 x nrhs tr).mem.w = (self.solve qr_solve mem A2 x nrhs tr).mem.w := by
  exact ⟨rfl, rfl, rfl, rfl, rfl, rfl⟩

/-- C5: after `init`, `eps_` is the value stored under the key "eps" when the
dictionary (a map, so with distinct keys) has that key, it is the default
1e-12 when the key is absent, and two dictionaries with the same "eps"
entries give the same `eps_`, whatever their other entries. -/
theorem init_eps {G α : Type} [OfScientific α]
    (base_init : Dict G → LinsolInternal → LinsolInternal) (to_double : G → α)
    (qr_sparse : Sparsity → Sparsity × Sparsity × List Int × List Int)
    (self : LinsolQr α) (opts : Dict G) (hnodup : (opts.map Prod.fst).Nodup) :
    (∀ v, ("eps", v) ∈ opts →
      (self.init base_init to_double qr_sparse opts).eps_ = to_double v) ∧
    ((∀ v, ("eps", v) ∉ opts) →
      (self.init base_init to_double qr_sparse opts).eps_ = 1e-12) ∧
    (∀ opts2 : Dict G,
      opts2.filter (fun op => op.1 = "eps") = opts.filter (fun op => op.1 = "eps") →
      (self.init base_init to_double qr_sparse opts2).eps_
        = (self.init base_init to_double qr_sparse opts).eps_) := by
  refine ⟨?_, ?_, ?_⟩
  · intro v hv
    exact eps_fold_key to_double opts _ v hnodup hv
  · intro h
    apply eps_fold_no_key
    intro op hop heq
    exact h op.2 (by rw [← heq]; exact hop)
  · intro opts2 h
    simp only [LinsolQr.init]
    rw [eps_fold_filter to_double opts2, eps_fold_filter to_double opts, h]

/-- C5 at a concrete dictionary with the keys "eps" and "verbose". -/
theorem init_eps_witness :
    ((([("eps", (3 : ℚ)), ("verbose", 1)] : Dict ℚ).map Prod.fst).Nodup) ∧
    ((⟨⟨⟨2, 2, [0, 1, 2], [0, 1]⟩, false⟩, [], [], ⟨0, 0, [], []⟩, ⟨0, 0, [], []⟩, 0⟩ :
        LinsolQr ℚ).init (fun _ b => b) id
        (fun sp => (sp, sp, [0, 1], [0, 1])) [("eps", 3), ("verbose", 1)]).eps_ = 3 := by
  refine ⟨by decide, ?_⟩
  exact (init_eps (fun _ b => b) id (fun sp => (sp, sp, [0, 1], [0, 1])) _
    [("eps", (3 : ℚ)), ("verbose", 1)] (by decide)).1 3 (by simp)

/-- C6: when the base-class `init_mem` succeeds, `init_mem` returns 0 and the
memory has `v`, `r`, `beta`, `w` of lengths nnz(sp_v_), nnz(sp_r_), ncol and
nrow + ncol; when it fails, `init_mem` returns 1 and the four vectors are
unchanged. -/
theorem init_mem_sizes {M α : Type} [Zero α] (base_init_mem : M → Int × M)
    (self : LinsolQr α) (mem : LinsolQrMemory M α) :
    ((base_init_mem mem.base).1 = 0 →
      (self.init_mem base_init_mem mem).1 = 0 ∧
      (self.init_mem base_init_mem mem).2.v.length = self.sp_v_.nnz ∧
      (self.init_mem base_init_mem mem).2.r.length = self.sp_r_.nnz ∧
      (self.init_mem base_init_mem mem).2.beta.length = self.ncol ∧
      (self.init_mem base_init_mem mem).2.w.length = self.nrow + self.ncol ∧
      self.sp_.nrow + self.sp_.ncol ≤ (self.init_mem base_init_mem mem).2.w.length) ∧
    ((base_init_mem mem.base).1 ≠ 0 →
      (self.init_mem base_init_mem mem).1 = 1 ∧
      (self.init_mem base_init_mem mem).2.v = mem.v ∧
      (self.init_mem base_init_mem mem).2.r = mem.r ∧
      (self.init_mem base_init_mem mem).2.beta = mem.beta ∧
      (self.init_mem base_init_mem mem).2.w = mem.w) := by
  constructor
  · intro h
    simp [LinsolQr.init_mem, h, resize_length, LinsolQr.nrow, LinsolQr.ncol]
  · intro h
    simp [LinsolQr.init_mem, h]

/-- C6 at a 2-by-2 solver: one memory block with a succeeding base class and
one with a failing base class. -/
theorem init_mem_sizes_witness :
    ((⟨⟨⟨2, 2, [0, 1, 2], [0, 1]⟩, false⟩, [0, 1], [0, 1], ⟨2, 2, [0, 1, 2], [0, 1]⟩,
        ⟨2, 2, [0, 1, 3], [0, 0, 1]⟩, 0⟩ : LinsolQr ℤ).init_mem
        (fun (b : Unit) => (0, b)) ⟨(), [], [], [], []⟩).2.r.length = 3 ∧
    ((⟨⟨⟨2, 2, [0, 1, 2], [0, 1]⟩, false⟩, [0, 1], [0, 1], ⟨2, 2, [0, 1, 2], [0, 1]⟩,
        ⟨2, 2, [0, 1, 3], [0, 0, 1]⟩, 0⟩ : LinsolQr ℤ).init_mem
        (fun (b : Unit) => (7, b)) ⟨(), [5], [], [], []⟩).2.v = [5] :=
  ⟨((init_mem_sizes (fun (b : Unit) => ((0 : Int), b)) _ _).1 rfl).2.2.1,
   ((init_mem_sizes (fun (b : Unit) => ((7 : Int), b)) _ _).2 (by decide)).2.1⟩

/-- C3: serialize then deserialize.  Provided the base-class constructor reads
back exactly the records the base-class `serialize_body` wrote, the
deserializing constructor applied to the output of `serialize_body` succeeds,
consumes exactly that output, and yields a solver with the same `prinv_`,
`pc_`, `sp_v_`, `sp_r_` and `eps_`, for every state (also one that no
symbolic analysis would compute: nothing is recomputed). -/
theorem deserialize_serialize_body {α : Type} (base_ser : LinsolInternal → Stream α)
    (base_deser : Stream α → Unpacked α LinsolInternal) (self : LinsolQr α)
    (rest : Stream α)
    (hbase : ∀ tail : Stream α, ∃ b : LinsolInternal,
      base_deser (base_ser self.toLinsolInternal ++ tail) = (.ok b, tail)) :
    ∃ self2 : LinsolQr α,
      LinsolQr.deserialize base_deser (self.serialize_body base_ser [] ++ rest)
        = (.ok self2, rest) ∧
      self2.prinv_ = self.prinv_ ∧ self2.pc_ = self.pc_ ∧ self2.sp_v_ = self.sp_v_ ∧
      self2.sp_r_ = self.sp_r_ ∧ self2.eps_ = self.eps_ := by
  obtain ⟨b, hb⟩ := hbase
    ([Item.version "LinsolQr" 1,
      Item.int_vector "LinsolQr::prinv" self.prinv_,
      Item.int_vector "LinsolQr::pc" self.pc_,
      Item.sparsity "LinsolQr::sp_v" self.sp_v_,
      Item.sparsity "LinsolQr::sp_r" self.sp_r_,
      Item.real "LinsolQr::eps" self.eps_] ++ rest)
  refine ⟨{ toLinsolInternal := b, prinv_ := self.prinv_, pc_ := self.pc_,
            sp_v_ := self.sp_v_, sp_r_ := self.sp_r_, eps_ := self.eps_ }, ?_, rfl, rfl, rfl,
            rfl, rfl⟩
  simp only [LinsolQr.serialize_body, List.nil_append, List.append_assoc, LinsolQr.deserialize]
  rw [hb]
  simp [Unpacked.andThen, DeserializingStream.version, DeserializingStream.unpack_int_vector,
    DeserializingStream.unpack_sparsity, DeserializingStream.unpack_real]

/-- C3 for a base class that stores its pattern and its flag as two records. -/
theorem deserialize_serialize_body_witness :
    ∃ self2 : LinsolQr ℤ,
      LinsolQr.deserialize
        (fun s => match s with
          | Item.sparsity _ sp :: Item.bool _ vb :: t => (.ok ⟨sp, vb⟩, t)
          | _ => (.error "base", s))
        ((⟨⟨⟨2, 2, [0, 1, 2], [0, 1]⟩, true⟩, [1, 0], [0, 1], ⟨2, 2, [0, 1, 2], [0, 1]⟩,
            ⟨2, 2, [0, 1, 3], [0, 0, 1]⟩, 5⟩ : LinsolQr ℤ).serialize_body
          (fun b => [Item.sparsity "sp" b.sp_, Item.bool "verbose" b.verbose_]) [] ++ [])
        = (.ok self2, []) ∧
      self2.prinv_ = [1, 0] ∧ self2.pc_ = [0, 1] ∧ self2.sp_v_ = ⟨2, 2, [0, 1, 2], [0, 1]⟩ ∧
      self2.sp_r_ = ⟨2, 2, [0, 1, 3], [0, 0, 1]⟩ ∧ self2.eps_ = 5 :=
  deserialize_serialize_body
    (fun b => [Item.sparsity "sp" b.sp_, Item.bool "verbose" b.verbose_])
    (fun s => match s with
      | Item.sparsity _ sp :: Item.bool _ vb :: t => (.ok ⟨sp, vb⟩, t)
      | _ => (.error "base", s))
    ⟨⟨⟨2, 2, [0, 1, 2], [0, 1]⟩, true⟩, [1, 0], [0, 1], ⟨2, 2, [0, 1, 2], [0, 1]⟩,
      ⟨2, 2, [0, 1, 3], [0, 0, 1]⟩, 5⟩
    [] (fun _ => ⟨⟨⟨2, 2, [0, 1, 2], [0, 1]⟩, true⟩, rfl⟩)

/-- C4: when the record after the base-class part is a "LinsolQr" version tag
other than 1, the deserializing constructor fails right after reading the tag:
the result is an error and every record behind the tag is still unread.  The
tag 1 passes the check, and 1 is the tag `serialize_body` writes right after
the base-class part. -/
theorem deserialize_version_check {α : Type} (base_deser : Stream α → Unpacked α LinsolInternal)
    (s rest : Stream α) (b : LinsolInternal) (v : Int)
    (hbase : base_deser s = (.ok b, Item.version "LinsolQr" v :: rest)) (hv : v ≠ 1) :
    (∃ e : String, LinsolQr.deserialize base_deser s = (.error e, rest)) ∧
    DeserializingStream.version "LinsolQr" 1 (Item.version "LinsolQr" 1 :: rest)
      = (.ok (), rest) ∧
    ∀ (base_ser : LinsolInternal → Stream α) (self : LinsolQr α) (s0 : Stream α),
      ∃ tail : Stream α, self.serialize_body base_ser s0
        = s0 ++ base_ser self.toLinsolInternal ++ Item.version "LinsolQr" 1 :: tail := by
  refine ⟨⟨"DeSerialization of " ++ "LinsolQr" ++ " failed: unsupported version", ?_⟩, ?_, ?_⟩
  · simp only [LinsolQr.deserialize, hbase, Unpacked.andThen, DeserializingStream.version,
      if_true, hv, if_false]
  · simp [DeserializingStream.version]
  · intro base_ser self s0
    exact ⟨_, rfl⟩

/-- C4 on a payload whose tag is 2 followed by well-formed fields. -/
theorem deserialize_version_check_witness :
    ∃ e : String, LinsolQr.deserialize
      (fun (s : Stream ℤ) => match s with
        | Item.sparsity _ sp :: Item.bool _ vb :: t => (.ok ⟨sp, vb⟩, t)
        | _ => (.error "base", s))
      [Item.sparsity "sp" ⟨1, 1, [0, 1], [0]⟩, Item.bool "verbose" false,
       Item.version "LinsolQr" 2, Item.int_vector "LinsolQr::prinv" [0],
       Item.int_vector "LinsolQr::pc" [0], Item.sparsity "LinsolQr::sp_v" ⟨1, 1, [0, 1], [0]⟩,
       Item.sparsity "LinsolQr::sp_r" ⟨1, 1, [0, 1], [0]⟩, Item.real "LinsolQr::eps" 0]
      = (.error e,
         [Item.int_vector "LinsolQr::prinv" [0],
          Item.int_vector "LinsolQr::pc" [0], Item.sparsity "LinsolQr::sp_v" ⟨1, 1, [0, 1], [0]⟩,
          Item.sparsity "LinsolQr::sp_r" ⟨1, 1, [0, 1], [0]⟩, Item.real "LinsolQr::eps" 0]) :=
  (deserialize_version_check
    (fun (s : Stream ℤ) => match s with
      | Item.sparsity _ sp :: Item.bool _ vb :: t => (.ok ⟨sp, vb⟩, t)
      | _ => (.error "base", s))
    _ _ ⟨⟨1, 1, [0, 1], [0]⟩, false⟩ 2 rfl (by decide)).1

/-- C9 (amended): when the `casadi_int` sum nrow + ncol does not overflow, the
text `generate` appends to the generator is one block: an opening brace, the
comment, one declaration of the arrays `v`, `r`, `beta`, `w` with the lengths
nnz(sp_v_), nnz(sp_r_), ncol and nrow + ncol, the factorization call, the
solve call, and the closing brace, with nothing else between or after them;
and these four lengths are the lengths of the vectors of any memory block that
`init_mem` has set up. -/
theorem generate_layout {X M α : Type} [Zero α] (ops : CodeGenOps X) (self : LinsolQr α)
    (g : CodeGenerator X) (A x : String) (nrhs : Int) (tr : Bool)
    (base_init_mem : M → Int × M) (mem : LinsolQrMemory M α)
    (hbase : (base_init_mem mem.base).1 = 0)
    (hsum : self.nrow + self.ncol < 9223372036854775808) :
    let prinv := ops.constant g.aux self.prinv_
    let pc := ops.constant prinv.2 self.pc_
    let sp := ops.sparsity pc.2 self.sp_
    let sp_v := ops.sparsity sp.2 self.sp_v_
    let sp_r := ops.sparsity sp_v.2 self.sp_r_
    let f := ops.qr sp_r.2 sp.1 A "w" sp_v.1 "v" sp_r.1 "r" "beta" prinv.1 pc.1
    let sv := ops.qr_solve f.2 x nrhs tr sp_v.1 "v" sp_r.1 "r" "beta" prinv.1 pc.1 "w"
    let m := (self.init_mem base_init_mem mem).2
    (self.generate ops g A x nrhs tr).buffer
      = g.buffer ++ ("\x7b\n"
          ++ (ops.comment "FIXME(@jaeandersson): Memory allocation can be avoided"
          ++ ("casadi_real v[" ++ (toString m.v.length ++ ("], r[" ++ (toString m.r.length
          ++ ("], beta[" ++ (toString m.beta.length ++ ("], w[" ++ (toString m.w.length
          ++ ("];\n" ++ (f.1 ++ ("\n" ++ (sv.1 ++ ("\n" ++ "\x7d\n"))))))))))))))) := by
  have hv : (self.init_mem base_init_mem mem).2.v.length = self.sp_v_.nnz := by
    simp [LinsolQr.init_mem, hbase, resize_length]
  have hr : (self.init_mem base_init_mem mem).2.r.length = self.sp_r_.nnz := by
    simp [LinsolQr.init_mem, hbase, resize_length]
  have hb : (self.init_mem base_init_mem mem).2.beta.length = self.ncol := by
    simp [LinsolQr.init_mem, hbase, resize_length]
  have hw : (self.init_mem base_init_mem mem).2.w.length = self.nrow + self.ncol := by
    simp [LinsolQr.init_mem, hbase, resize_length]
  simp only [LinsolQr.generate, CodeGenerator.shl, String.append_assoc, hv, hr, hb, hw,
    casadi_int_add_of_lt _ _ hsum, toString_natCast_int]

/-- C7: raising the threshold never lowers the nullity that the singularity
scan reports on fixed R values and symbolic data; hence, on the same matrix
values, if `nfact` returns 0 with the threshold `eps2` it also returns 0 with
any threshold `eps1 ≤ eps2`. -/
theorem nullity_mono_eps {M α : Type} [LinearOrderedField α] (qr : QrFn α)
    (qr_colcomb : QrColcombFn α) (self : LinsolQr α) (rmin0 : α) (irmin0 : Int)
    (mem : LinsolQrMemory M α) (A : List α) (eps1 eps2 : α) (h : eps1 ≤ eps2) :
    (∀ (nz_r : List α) (sp_r : Sparsity) (pc : List Int),
      (casadi_qr_singular rmin0 irmin0 nz_r sp_r pc eps1).nullity
        ≤ (casadi_qr_singular rmin0 irmin0 nz_r sp_r pc eps2).nullity) ∧
    (({ self with eps_ := eps2 }.nfact qr casadi_qr_singular qr_colcomb
        rmin0 irmin0 mem A).status = 0 →
     ({ self with eps_ := eps1 }.nfact qr casadi_qr_singular qr_colcomb
        rmin0 irmin0 mem A).status = 0) := by
  constructor
  · intro nz_r sp_r pc
    exact qr_singular_scan_nullity_mono rmin0 irmin0 nz_r sp_r pc eps1 eps2 h _
  · rw [nfact_status_eq, nfact_status_eq]
    simp only [LinsolQr.nfact_r, casadi_qr_singular]
    intro h2
    have hmono := qr_singular_scan_nullity_mono rmin0 irmin0
      (qr self.sp_ A mem.w self.sp_v_ mem.v self.sp_r_ mem.r mem.beta self.prinv_ self.pc_).r
      self.sp_r_ self.pc_ eps1 eps2 h self.sp_r_.ncol
    have hb := (qr_singular_scan_nullity_bounds rmin0 irmin0
      (qr self.sp_ A mem.w self.sp_v_ mem.v self.sp_r_ mem.r mem.beta self.prinv_ self.pc_).r
      self.sp_r_ self.pc_ eps1 self.sp_r_.ncol).1
    split_ifs at h2 with h3
    · rw [h3] at hmono
      rw [if_pos (le_antisymm hmono hb)]
    · exact absurd h2 (by decide)

/-- C8 (amended): in the report of the scan on the R values that `nfact` leaves
in the memory: when R has at least one column, `rmin` is the smallest diagonal
magnitude of R and `irmin` is the index, in permuted order, of a diagonal
entry with that magnitude; whenever `nfact` returns a nonzero status, the
nullity is at least 1, `rmin < eps_`, the rank `ncol - nullity` is below
`ncol`, the rank is at least 0 when the R pattern has as many columns as the
matrix, and with `verbose_` set the first two messages `nfact` prints carry
this rank with `ncol`, and `rmin`, `eps_`, `irmin`. -/
theorem nfact_singular_report {M α : Type} [LinearOrderedField α] (qr : QrFn α)
    (qr_colcomb : QrColcombFn α) (self : LinsolQr α) (rmin0 : α) (irmin0 : Int)
    (mem : LinsolQrMemory M α) (A : List α) :
    let res := self.nfact qr casadi_qr_singular qr_colcomb rmin0 irmin0 mem A
    let R := res.mem.r
    let rep := casadi_qr_singular rmin0 irmin0 R self.sp_r_ self.pc_ self.eps_
    (0 < self.sp_r_.ncol →
      (∀ c, c < self.sp_r_.ncol → rep.rmin ≤ |qr_diag R self.sp_r_ c|) ∧
      ∃ c, c < self.sp_r_.ncol ∧ rep.rmin = |qr_diag R self.sp_r_ c| ∧
        rep.irmin = (c : Int)) ∧
    (res.status ≠ 0 →
      1 ≤ rep.nullity ∧ rep.rmin < self.eps_ ∧
      (self.ncol : Int) - rep.nullity < self.ncol ∧
      (self.sp_r_.ncol = self.ncol → 0 ≤ (self.ncol : Int) - rep.nullity) ∧
      (self.verbose_ = true → ∃ rest : List (PrintEvent α), res.out =
        ⟨"Singularity detected: Rank %lld<%lld\n",
          [.int ((self.ncol : Int) - rep.nullity), .int self.ncol]⟩ ::
        ⟨"First singular R entry: %g<%g, corresponding to row %lld\n",
          [.real rep.rmin, .real self.eps_, .int rep.irmin]⟩ :: rest)) := by
  intro res R rep
  have hR : R = self.nfact_r qr mem A := nfact_mem_r qr casadi_qr_singular qr_colcomb self
    rmin0 irmin0 mem A
  have hb := qr_singular_scan_nullity_bounds rmin0 irmin0 R self.sp_r_ self.pc_ self.eps_
    self.sp_r_.ncol
  have hrep : rep = qr_singular_scan rmin0 irmin0 R self.sp_r_ self.pc_ self.eps_
      self.sp_r_.ncol := rfl
  have hmin : 0 < self.sp_r_.ncol →
      (∀ c, c < self.sp_r_.ncol → rep.rmin ≤ |qr_diag R self.sp_r_ c|) ∧
      ∃ c, c < self.sp_r_.ncol ∧ rep.rmin = |qr_diag R self.sp_r_ c| ∧
        rep.irmin = (c : Int) := by
    intro hn
    obtain ⟨n, hn1⟩ : ∃ n, self.sp_r_.ncol = n + 1 := ⟨self.sp_r_.ncol - 1, by omega⟩
    rw [hrep, hn1]
    exact qr_singular_scan_rmin rmin0 irmin0 R self.sp_r_ self.pc_ self.eps_ n
  refine ⟨hmin, ?_⟩
  intro hst
  have hst2 : res.status = if (casadi_qr_singular rmin0 irmin0 (self.nfact_r qr mem A)
      self.sp_r_ self.pc_ self.eps_).nullity = 0 then 0 else 1 :=
    nfact_status_eq qr casadi_qr_singular qr_colcomb self rmin0 irmin0 mem A
  have hne : rep.nullity ≠ 0 := by
    intro h0
    apply hst
    rw [hst2, ← hR]
    exact if_pos h0
  rw [← hrep] at hb
  have hpos : 1 ≤ rep.nullity := by omega
  obtain ⟨c, hc, hd⟩ := (qr_singular_scan_nullity_pos rmin0 irmin0 R self.sp_r_ self.pc_
    self.eps_ self.sp_r_.ncol).mp (hrep ▸ hpos)
  have hn : 0 < self.sp_r_.ncol := by omega
  refine ⟨hpos, lt_of_le_of_lt ((hmin hn).1 c hc) hd, by omega, ?_, ?_⟩
  · intro hr
    rw [hr] at hb
    omega
  · intro hv
    have hne2 : (casadi_qr_singular rmin0 irmin0 (self.nfact_r qr mem A)
        self.sp_r_ self.pc_ self.eps_).nullity ≠ 0 := by
      rw [← hR]
      exact hne
    obtain ⟨w, hw⟩ := nfact_out_verbose qr casadi_qr_singular qr_colcomb self rmin0 irmin0
      mem A hne2 hv
    have hout : res.out = self.nfact_messages rep w := by
      show (self.nfact qr casadi_qr_singular qr_colcomb rmin0 irmin0 mem A).out = _
      rw [hw, ← hR]
    rw [hout]
    exact ⟨_, rfl⟩

/-- C9 for `demo_solver`: the emitted block, written out. -/
theorem generate_layout_witness :
    (demo_solver.generate demo_ops ⟨"", 0⟩ "A" "x" 1 false).buffer
      = "\x7b\n// FIXME(@jaeandersson): Memory allocation can be avoided\ncasadi_real v[2], r[3], beta[2], w[4];\ncasadi_qr(casadi_s2, A, w, casadi_s3, v, casadi_s4, r, beta, casadi_c0, casadi_c1);\ncasadi_qr_solve(x, 1, 0, casadi_s3, v, casadi_s4, r, beta, casadi_c0, casadi_c1, w);\n\x7d\n" := by
  have h := generate_layout demo_ops demo_solver ⟨"", 0⟩ "A" "x" 1 false
    (fun (b : Unit) => ((0 : Int), b)) demo_mem rfl (by decide)
  exact h.trans (by decide)

/-- C7 for the matrix with values 2, 7, -1 and the thresholds 1/2 and 2. -/
theorem nullity_mono_eps_witness :
    ((1 : ℚ) / 2 ≤ 2) ∧
    (casadi_qr_singular (0 : ℚ) 0 [2, 7, -1] demo_sp [0, 1] (1 / 2)).nullity
      ≤ (casadi_qr_singular (0 : ℚ) 0 [2, 7, -1] demo_sp [0, 1] 2).nullity :=
  ⟨by norm_num,
   (nullity_mono_eps demo_qr demo_colcomb demo_solver 0 0 demo_mem [2, 7, -1] (1 / 2) 2
      (by norm_num)).1 [2, 7, -1] demo_sp [0, 1]⟩

/-- C8 for `demo_solver_perm` (columns exchanged), the matrix with values
1, 7, 5 and threshold 2: `nfact` fails, the nullity is 1, `rmin` is 1 and
`irmin` is 0, the position of the diagonal entry of magnitude 1. -/
theorem nfact_singular_report_witness :
    (demo_solver_perm.nfact demo_qr casadi_qr_singular demo_colcomb 0 0 demo_mem
      [1, 7, 5]).status = 1 ∧
    (casadi_qr_singular (0 : ℚ) 0 [1, 7, 5] demo_sp [1, 0] 2).nullity = 1 ∧
    (casadi_qr_singular (0 : ℚ) 0 [1, 7, 5] demo_sp [1, 0] 2).rmin = 1 ∧
    (casadi_qr_singular (0 : ℚ) 0 [1, 7, 5] demo_sp [1, 0] 2).irmin = 0 ∧
    |qr_diag ([1, 7, 5] : List ℚ) demo_sp 0| = 1 ∧
    (casadi_qr_singular (0 : ℚ) 0 [1, 7, 5] demo_sp [1, 0] 2).rmin < 2 ∧
    0 ≤ ((2 : Nat) : Int) - (casadi_qr_singular (0 : ℚ) 0 [1, 7, 5] demo_sp [1, 0] 2).nullity :=
  ⟨by decide, by decide, by decide, by decide, by decide,
   ((nfact_singular_report demo_qr demo_colcomb demo_solver_perm 0 0 demo_mem [1, 7, 5]).2
      (by decide)).2.1,
   ((nfact_singular_report demo_qr demo_colcomb demo_solver_perm 0 0 demo_mem [1, 7, 5]).2
      (by decide)).2.2.2.1 rfl⟩

/-- C8 as stated fails: for `mismatch_solver`, bound to a 1-by-1 matrix with an
R pattern of two columns, `nfact` returns 1 with nullity 2 and prints the
rank -1. -/
theorem nfact_singular_report_rank_negative :
    (mismatch_solver.nfact zero_qr casadi_qr_singular demo_colcomb 0 0 mismatch_mem
      [0]).status = 1 ∧
    (casadi_qr_singular (0 : ℚ) 0
      (mismatch_solver.nfact zero_qr casadi_qr_singular demo_colcomb 0 0 mismatch_mem [0]).mem.r
      mismatch_solver.sp_r_ mismatch_solver.pc_ mismatch_solver.eps_).nullity = 2 ∧
    (mismatch_solver.nfact zero_qr casadi_qr_singular demo_colcomb 0 0 mismatch_mem
      [0]).out.head? = some ⟨"Singularity detected: Rank %lld<%lld\n", [.int (-1), .int 1]⟩ ∧
    ¬ (0 ≤ (mismatch_solver.ncol : Int) - (casadi_qr_singular (0 : ℚ) 0
      (mismatch_solver.nfact zero_qr casadi_qr_singular demo_colcomb 0 0 mismatch_mem [0]).mem.r
      mismatch_solver.sp_r_ mismatch_solver.pc_ mismatch_solver.eps_).nullity) := by
  refine ⟨by decide, by decide, by decide, by decide⟩

/-- C9 as stated fails: for `overflow_solver` (2^63 - 1 rows, one column) the
emitted declaration is `w[-9223372036854775808]`, which is neither
`w[nrow + ncol]` nor the length 2^63 that `init_mem` gives to `w`. -/
theorem generate_layout_overflow :
    (overflow_solver.generate demo_ops ⟨"", 0⟩ "A" "x" 1 false).buffer
      = "\x7b\n// FIXME(@jaeandersson): Memory allocation can be avoided\ncasadi_real v[0], r[0], beta[1], w[-9223372036854775808];\ncasadi_qr(casadi_s2, A, w, casadi_s3, v, casadi_s4, r, beta, casadi_c0, casadi_c1);\ncasadi_qr_solve(x, 1, 0, casadi_s3, v, casadi_s4, r, beta, casadi_c0, casadi_c1, w);\n\x7d\n" ∧
    overflow_solver.nrow + overflow_solver.ncol = 9223372036854775808 ∧
    (overflow_solver.init_mem (fun (b : Unit) => ((0 : Int), b))
      ⟨(), [], [], [], []⟩).2.w.length = 9223372036854775808 := by
  refine ⟨by decide, by decide, ?_⟩
  simp [LinsolQr.init_mem, resize_length, LinsolQr.nrow, LinsolQr.ncol, overflow_solver]

end casadi
